import Mathlib

/-!
Verification of the grocery-list parser of the voice/chat ordering app.

The repository contains two near-duplicate implementations of the parser:
one inside the voice assistant component (`AudioAssistant.tsx`,
`handleVoiceCommand` / its inner `parseMultipleItems`), and one inside the
chat-input handler (`handleChatSubmit` / its inner `parseMultipleItems`).
Both are embedded here, faithfully and separately, since they differ in
several observable ways (kept character class, separators, quantity maps,
clamping, aggregation).

Modelling conventions of the shallow embedding:
* JavaScript strings are modelled as Lean `String` / `List Char`; the
  relevant code is ASCII-only, so `String.prototype.toLowerCase` is
  modelled by `Char.toLower` (ASCII lowercasing) and the regex class
  `\s` by `Char.isWhitespace`.
* JavaScript `Set` values are modelled as duplicate-free lists built in
  insertion order (`nub`); only membership and size are consumed.
* `Array.prototype.sort` with comparator `(a,b) => b.score - a.score` is
  a stable descending sort (ES2019), modelled by the stable insertion
  sort `sortDesc`; stable descending order is unique, so the model is
  exact.
* The record `aggregated : Record<number, number>` with small integer
  keys enumerates (`Object.entries`) in ascending numeric key order;
  it is modelled by an association list plus an ascending sort by key.
* Record literal lookup (`quantityMap[t]`) is modelled as lookup among
  the literal's own entries.
* The parsers read only the `id`, `name` and `category` fields of a
  product, so only those are carried in `Product`.
-/

namespace VoiceOrder

/-- A catalog product, restricted to the fields the parser reads. -/
structure Product where
  id : Nat
  name : String
  category : String
deriving DecidableEq

/-- A parsed (product, quantity) pair, as produced by both parsers. -/
structure ParsedItem where
  productId : Nat
  quantity : Nat
deriving DecidableEq

/-- A product id together with its token-overlap score for one fragment. -/
structure Scored where
  productId : Nat
  score : Nat
deriving DecidableEq

/-! ## Character helpers -/

def isAsciiLowerAlpha (c : Char) : Bool := 'a' ≤ c && c ≤ 'z'

/-- JS word character (regex `\w`): letters, digits, underscore. -/
def isWordChar (c : Char) : Bool := c.isAlpha || c.isDigit || c = '_'

/-- Numeric value of a run of decimal digit characters (JS `parseInt`). -/
def digitsVal (ds : List Char) : Nat :=
  ds.foldl (fun n c => n * 10 + (c.toNat - 48)) 0

/-- `text.toLowerCase()` on ASCII text. -/
def lowerStr (s : String) : String := ⟨s.data.map Char.toLower⟩

/-- JS `String.prototype.trim`: drop leading and trailing whitespace. -/
def jsTrim (l : List Char) : List Char :=
  ((l.dropWhile Char.isWhitespace).reverse.dropWhile Char.isWhitespace).reverse

/-! ## Tokenization

Both implementations share this pipeline (from the source):
lowercase, blank every character outside a kept class, split on
whitespace runs, naively singularize each word, then keep only
non-empty non-stop-word tokens.  They differ in the kept class:
the voice assistant keeps `[a-z\s]` (its regex is `/[^a-z\s]/g`),
the chat handler keeps `[a-z\s\d]` (its regex is `/[^a-z\s\d]/g`). -/

/-- The shared stop-word set (`STOP_WORDS` in both sources). -/
def STOP_WORDS : List String :=
  ["fresh", "organic", "whole", "sweet", "some", "add", "get", "need",
   "want", "please", "a", "an", "the", "and", "kg", "dozen", "cup",
   "cups", "litre", "liter", "per"]

/-- Naive singularization (`singularize` in both sources):
trailing "ies" becomes "y", else trailing "es" is dropped, else a
trailing "s" is dropped when the word is longer than 3 characters. -/
def singularizeL (w : List Char) : List Char :=
  match w.reverse with
  | 's' :: 'e' :: 'i' :: rest => ('y' :: rest).reverse
  | 's' :: 'e' :: rest => rest.reverse
  | 's' :: rest => if w.length > 3 then rest.reverse else w
  | _ => w

def singularize (w : String) : String := ⟨singularizeL w.data⟩

/-- Replace every character not satisfying `keep` by a space. -/
def blankOutside (keep : Char → Bool) (l : List Char) : List Char :=
  l.map (fun c => if keep c then c else ' ')

/-- Split a character list into its maximal non-whitespace runs
(the non-empty pieces of a JS split on `/\s+/`). -/
def wordsAux (cur : List Char) : List Char → List (List Char)
  | [] => if cur.isEmpty then [] else [cur.reverse]
  | c :: cs =>
    if c.isWhitespace then
      if cur.isEmpty then wordsAux [] cs else cur.reverse :: wordsAux [] cs
    else wordsAux (c :: cur) cs

/-- The shared tokenizer pipeline, parameterized by the kept class.
Empty tokens are dropped together with stop words at the end, exactly
as the source does (`.filter(t => t && !STOP_WORDS.has(t))`); note that
singularization itself can empty a token (the word "es"). -/
def tokenizeWith (keep : Char → Bool) (text : String) : List String :=
  (((wordsAux [] (blankOutside keep (text.data.map Char.toLower))).map
      singularizeL).map (fun w => (⟨w⟩ : String))).filter
    (fun t => !(t == "") && !(STOP_WORDS.contains t))

/-- Kept class of the voice assistant's tokenizer: `[a-z\s]`.
Digits are blanked like punctuation. -/
def keepVoice (c : Char) : Bool := isAsciiLowerAlpha c || c.isWhitespace

/-- Kept class of the chat handler's tokenizer: `[a-z\s\d]`. -/
def keepChat (c : Char) : Bool := isAsciiLowerAlpha c || c.isWhitespace || c.isDigit

def tokenizeVoice : String → List String := tokenizeWith keepVoice

def tokenizeChat : String → List String := tokenizeWith keepChat

/-- Modelled from the spec's words, for the refinement comparison of the
tokenization claim: the kept class is written `[a-z0-9\s]` in the spec. -/
def specKeep (c : Char) : Bool :=
  ('a' ≤ c && c ≤ 'z') || ('0' ≤ c && c ≤ '9') || c.isWhitespace

/-- Modelled from the spec's words: the tokenizer as the specification
describes it (lowercase; blank characters outside `[a-z0-9\s]`; split on
whitespace runs; drop empty tokens; singularize; drop stop words). -/
def tokenizeSpec : String → List String := tokenizeWith specKeep

/-- First-occurrence duplicate removal: a JS `Set` built in insertion
order, read back as a list. -/
def nub (l : List String) : List String :=
  l.foldl (fun acc x => if acc.contains x then acc else acc ++ [x]) []

/-- Is the token a pure digit run (regex `/^\d+$/`)? -/
def isNumericToken (t : String) : Bool :=
  !(t.data.isEmpty) && t.data.all Char.isDigit

/-! ## Best-match selection

Both implementations score every product by the number of distinct
product-name tokens that occur among the fragment's tokens, then take
`scored.sort((a,b) => b.score - a.score)[0]`.  The JS sort is stable,
so this is the head of the stable descending sort, modelled by
`sortDesc`. -/

/-- Stable descending insertion by score: an element moves past the
already-sorted tail only when its score is strictly larger, so equal
scores keep their original (catalog) order. -/
def insDesc (x : Scored) : List Scored → List Scored
  | [] => [x]
  | y :: ys => if x.score ≥ y.score then x :: y :: ys else y :: insDesc x ys

/-- The stable descending sort by score used by both call sites. -/
def sortDesc (l : List Scored) : List Scored := l.foldr insDesc []

/-- Score all products against one fragment's token set, in catalog
order, using the given tokenizer for product names. -/
def scoredWith (tok : String → List String) (products : List Product)
    (partTokens : List String) : List Scored :=
  products.map (fun p =>
    ⟨p.id, ((nub (tok p.name)).filter (fun t => partTokens.contains t)).length⟩)

def scoredVoice : List Product → List String → List Scored := scoredWith tokenizeVoice

def scoredChat : List Product → List String → List Scored := scoredWith tokenizeChat

/-! ## Voice-assistant parser (`AudioAssistant.tsx`) -/

/-- The voice parser's separators, applied sequentially by literal
string split: `[' and ', ', ', ' plus ', ' with ']` (case-sensitive). -/
def voiceSeparators : List String := [" and ", ", ", " plus ", " with "]

def startsWithL : List Char → List Char → Bool
  | [], _ => true
  | _ :: _, [] => false
  | s :: ss, c :: cs => s = c && startsWithL ss cs

/-- JS `String.prototype.split` with a literal non-empty separator,
written with fuel (one unit per consumed character plus one). -/
def splitLitAux (sep : List Char) : Nat → List Char → List Char → List (List Char)
  | 0, acc, l => [acc.reverse ++ l]
  | fuel + 1, acc, l =>
    if startsWithL sep l then
      acc.reverse :: splitLitAux sep fuel [] (l.drop sep.length)
    else
      match l with
      | [] => [acc.reverse]
      | c :: cs => splitLitAux sep fuel (c :: acc) cs

def jsSplitLit (sep : String) (s : String) : List String :=
  (splitLitAux sep.data (s.data.length + 1) [] s.data).map (fun l => (⟨l⟩ : String))

/-- `parts` of the voice parser: start from the whole command and split
every part by each separator in turn. -/
def splitVoice (command : String) : List String :=
  voiceSeparators.foldl (fun parts sep => (parts.map (jsSplitLit sep)).flatten) [command]

/-- The voice parser's numeric quantity detection:
`trimmedPart.match(/(\d+)\s+/)`, i.e. the first maximal digit run that
is immediately followed by a whitespace character. -/
def numericMatchVoice (cur : List Char) : List Char → Option Nat
  | [] => none
  | c :: cs =>
    if c.isDigit then numericMatchVoice (cur ++ [c]) cs
    else if c.isWhitespace && !cur.isEmpty then some (digitsVal cur)
    else numericMatchVoice [] cs

/-- The voice parser's word-quantity table, `one` through `ten`. -/
def quantityAssocVoice : List (String × Nat) :=
  [("one", 1), ("two", 2), ("three", 3), ("four", 4), ("five", 5),
   ("six", 6), ("seven", 7), ("eight", 8), ("nine", 9), ("ten", 10)]

def quantityWordsVoice : List String :=
  ["one", "two", "three", "four", "five", "six", "seven", "eight", "nine", "ten"]

/-- The voice parser's quantity for one (trimmed) fragment: first digit
run followed by whitespace if any, else the first word of `one`..`ten`
(in table order, not token order) present in the fragment's token set,
else 1.  No clamping. -/
def voiceQuantity (trimmedPart : String) : Nat :=
  match numericMatchVoice [] trimmedPart.data with
  | some n => n
  | none =>
    match quantityAssocVoice.find? (fun wq => (nub (tokenizeVoice trimmedPart)).contains wq.1) with
    | some wq => wq.2
    | none => 1

/-- The voice parser's matching token set for one (trimmed) fragment:
the token set minus the quantity words and pure digit runs. -/
def voicePartTokens (trimmedPart : String) : List String :=
  ((nub (tokenizeVoice trimmedPart)).filter
      (fun t => !(quantityWordsVoice.contains t))).filter
    (fun t => !(isNumericToken t))

/-- Process one fragment of the voice command: detect a quantity,
strip quantity tokens, score the catalog and push the best match when
its score is positive (`items.push`; no aggregation, no clamping). -/
def processPartVoice (products : List Product) (items : List ParsedItem)
    (part : String) : List ParsedItem :=
  if (⟨jsTrim part.data⟩ : String) = "" then items
  else
    match (sortDesc (scoredVoice products (voicePartTokens ⟨jsTrim part.data⟩))).head? with
    | some best =>
      if best.score > 0 then
        items ++ [⟨best.productId, voiceQuantity ⟨jsTrim part.data⟩⟩]
      else items
    | none => items

/-- The voice assistant's `parseMultipleItems`. -/
def parseMultipleItemsVoice (products : List Product) (command : String) :
    List ParsedItem :=
  (splitVoice command).foldl (processPartVoice products) []

/-! ## Chat-input parser (`handleChatSubmit` in the customer page) -/

/-- `\b` after a separator word: end of input or a non-word character. -/
def headNonWord : List Char → Bool
  | [] => true
  | c :: _ => !(isWordChar c)

/-- Does `c :: cs` start with the word `and` (case-insensitively),
followed by a word boundary? -/
def isAndAt (c : Char) : List Char → Bool
  | c2 :: c3 :: rest =>
    c.toLower == 'a' && c2.toLower == 'n' && c3.toLower == 'd' && headNonWord rest
  | _ => false

/-- Does `c :: cs` start with the word `plus` (case-insensitively),
followed by a word boundary? -/
def isPlusAt (c : Char) : List Char → Bool
  | c2 :: c3 :: c4 :: rest =>
    c.toLower == 'p' && c2.toLower == 'l' && c3.toLower == 'u' && c4.toLower == 's' &&
      headNonWord rest
  | _ => false

/-- Does `c :: cs` start with the word `with` (case-insensitively),
followed by a word boundary? -/
def isWithAt (c : Char) : List Char → Bool
  | c2 :: c3 :: c4 :: rest =>
    c.toLower == 'w' && c2.toLower == 'i' && c3.toLower == 't' && c4.toLower == 'h' &&
      headNonWord rest
  | _ => false

/-- Recognize, at the head of the remaining input, one separator core of
the chat split regex `/\s*(?:,|\band\b|&|\+|\bplus\b|\bwith\b)\s*/i` and
scan past it.  `prevW` records whether the previous character of the
original string is a word character (for the `\b` checks).  The `\s*`
padding of the regex only moves whitespace between fragments, and every
fragment is trimmed afterwards, so it is dropped from the model.  The
fuel argument (one unit per consumed character) only drives structural
recursion; it is always called with enough fuel. -/
def chatSplitAux : Nat → Bool → List Char → List Char → List (List Char)
  | 0, _, acc, l => [acc.reverse ++ l]
  | fuel + 1, prevW, acc, l =>
    match l with
    | [] => [acc.reverse]
    | c :: cs =>
      if c = ',' ∨ c = '&' ∨ c = '+' then
        acc.reverse :: chatSplitAux fuel false [] cs
      else if prevW = false ∧ isAndAt c cs = true then
        acc.reverse :: chatSplitAux fuel true [] (cs.drop 2)
      else if prevW = false ∧ isPlusAt c cs = true then
        acc.reverse :: chatSplitAux fuel true [] (cs.drop 3)
      else if prevW = false ∧ isWithAt c cs = true then
        acc.reverse :: chatSplitAux fuel true [] (cs.drop 3)
      else chatSplitAux fuel (isWordChar c) (c :: acc) cs

/-- The chat parser's fragment list:
`input.split(regex).map(p => p.trim()).filter(Boolean)`. -/
def chatParts (input : String) : List String :=
  ((chatSplitAux input.data.length false [] input.data).map
      (fun f => ((⟨jsTrim f⟩ : String)))).filter (fun p => !(p == ""))

/-- The chat parser's numeric quantity detection `part.match(/(\d+)/)`:
the first maximal digit run anywhere in the fragment. -/
def numericMatchChat : List Char → Option Nat
  | [] => none
  | c :: cs =>
    if c.isDigit then some (digitsVal (c :: cs.takeWhile Char.isDigit))
    else numericMatchChat cs

/-- The chat parser's word-quantity table, `one` through `twelve`. -/
def quantityAssocChat : List (String × Nat) :=
  [("one", 1), ("two", 2), ("three", 3), ("four", 4), ("five", 5), ("six", 6),
   ("seven", 7), ("eight", 8), ("nine", 9), ("ten", 10), ("eleven", 11), ("twelve", 12)]

def quantityWordsChat : List String :=
  ["one", "two", "three", "four", "five", "six", "seven", "eight", "nine",
   "ten", "eleven", "twelve"]

/-- The chat parser's detected quantity for one fragment, before the
clamp: first digit run if any, else the first token (in token order)
found in the word table, else 1. -/
def chatQuantityRaw (part : String) : Nat :=
  match numericMatchChat part.data with
  | some n => n
  | none =>
    match (tokenizeChat part).findSome? (fun t => quantityAssocChat.lookup t) with
    | some n => n
    | none => 1

/-- The chat parser's quantity for one fragment: the detected quantity,
clamped to at least 1 (`if (quantity < 1) quantity = 1`). -/
def chatQuantity (part : String) : Nat :=
  if chatQuantityRaw part < 1 then 1 else chatQuantityRaw part

/-- The chat parser's matching token set for one fragment: tokens minus
pure digit runs, deduplicated, minus the quantity words. -/
def chatPartTokens (part : String) : List String :=
  (nub ((tokenizeChat part).filter (fun t => !(isNumericToken t)))).filter
    (fun t => !(quantityWordsChat.contains t))

/-- Add a quantity under a key of the aggregation record
(`aggregated[pid] = (aggregated[pid] || 0) + qty`). -/
def bump : List (Nat × Nat) → Nat → Nat → List (Nat × Nat)
  | [], k, q => [(k, q)]
  | (k1, q1) :: rest, k, q =>
    if k1 = k then (k1, q1 + q) :: rest else (k1, q1) :: bump rest k q

/-- Ascending insertion by key, modelling `Object.entries` enumeration
order for small integer keys. -/
def insertAsc (p : Nat × Nat) : List (Nat × Nat) → List (Nat × Nat)
  | [] => [p]
  | q :: qs => if p.1 ≤ q.1 then p :: q :: qs else q :: insertAsc p qs

def sortAsc (l : List (Nat × Nat)) : List (Nat × Nat) := l.foldr insertAsc []

/-- Process one fragment of the chat input: aggregate the best match's
quantity under its product id, or record the fragment as unavailable. -/
def processPartChat (products : List Product)
    (st : List (Nat × Nat) × List String) (part : String) :
    List (Nat × Nat) × List String :=
  match (sortDesc (scoredChat products (chatPartTokens part))).head? with
  | some best =>
    if best.score > 0 then (bump st.1 best.productId (chatQuantity part), st.2)
    else (st.1, st.2 ++ [part])
  | none => (st.1, st.2 ++ [part])

/-- Result of the chat parser: the aggregated items (capped at 15) and
the unavailable fragments. -/
structure ChatParse where
  items : List ParsedItem
  unavailable : List String
deriving DecidableEq

/-- The chat handler's `parseMultipleItems`. -/
def parseMultipleItemsChat (products : List Product) (input : String) : ChatParse :=
  let st := (chatParts input).foldl (processPartChat products) ([], [])
  ⟨((sortAsc st.1).map (fun kv => ⟨kv.1, kv.2⟩)).take 15, st.2⟩

/-! ## Voice command decision (`handleVoiceCommand`) -/

/-- The externally observable decision of `handleVoiceCommand`: which
cart mutation (if any) the handler performs. -/
inductive VoiceAction where
  | bulkAdd (items : List ParsedItem)
  | addSingle (productId : Nat)
  | addCategory (productId : Nat)
  | notFound
deriving DecidableEq

/-- Keywords that may trigger the category-only fallback. -/
def categoryIntent : List String :=
  ["vegetable", "fruit", "dairy", "staple", "rice", "flour", "milk",
   "yogurt", "banana", "apple", "tomato", "spinach"]

/-- The `categoryMap` of the fallback, in key insertion order. -/
def categoryAssoc : List (String × String) :=
  [("vegetable", "vegetables"), ("fruit", "fruits"), ("dairy", "dairy"),
   ("staple", "staples")]

/-- The category fallback branch of `handleVoiceCommand`. -/
def voiceCategoryFallback (products : List Product) (queryTokens : List String)
    (hasCategoryOnlyIntent : Bool) : VoiceAction :=
  if hasCategoryOnlyIntent then
    match categoryAssoc.find? (fun kc => queryTokens.contains kc.1) with
    | some kc =>
      match products.find? (fun p => lowerStr p.category == kc.2) with
      | some prod => VoiceAction.addCategory prod.id
      | none => VoiceAction.notFound
    | none => VoiceAction.notFound
  else VoiceAction.notFound

/-- The decision logic of `handleVoiceCommand`: multi-item parse first
(capped at 15), then single best-match over the whole command, then the
category fallback, else failure. -/
def handleVoiceCommand (products : List Product) (command : String) : VoiceAction :=
  let queryTokens := nub (tokenizeVoice (lowerStr command))
  let multipleItems0 := parseMultipleItemsVoice products command
  let multipleItems :=
    if multipleItems0.length > 15 then multipleItems0.take 15 else multipleItems0
  if multipleItems.length > 1 then VoiceAction.bulkAdd multipleItems
  else if multipleItems.length = 1 then VoiceAction.bulkAdd multipleItems
  else
    let hasCategoryOnlyIntent :=
      categoryIntent.any (fun c => queryTokens.contains c) &&
        decide (queryTokens.length ≤ 2)
    match (sortDesc (scoredVoice products queryTokens)).head? with
    | some best =>
      if best.score > 0 then
        match products.find? (fun p => p.id == best.productId) with
        | some prod => VoiceAction.addSingle prod.id
        | none => VoiceAction.notFound
      else voiceCategoryFallback products queryTokens hasCategoryOnlyIntent
    | none => voiceCategoryFallback products queryTokens hasCategoryOnlyIntent

/-! ## Concrete catalogs used by the claims -/

/-- The catalog of the spec's worked example. -/
def demoCatalog : List Product :=
  [⟨1, "Fresh Tomatoes", "vegetables"⟩, ⟨3, "Sweet Bananas", "fruits"⟩]

def appleCatalog : List Product := [⟨1, "Apples", "fruits"⟩]

def tomatoCatalog : List Product := [⟨1, "Tomatoes", "vegetables"⟩]

def vegCatalog : List Product := [⟨1, "Fresh Spinach", "vegetables"⟩]

def withCatalog : List Product := [⟨1, "With", "misc"⟩]

/-! ## Helper lemmas: stable descending sort and best-match selection -/

lemma head?_mem {α : Type} {l : List α} {b : α} (h : l.head? = some b) : b ∈ l := by
  cases l with
  | nil => simp at h
  | cons a t =>
    simp only [List.head?, Option.some.injEq] at h
    subst h
    exact List.mem_cons_self _ _

lemma insDesc_perm (x : Scored) (l : List Scored) : (insDesc x l).Perm (x :: l) := by
  induction l with
  | nil => simp [insDesc]
  | cons y ys ih =>
    by_cases hxy : x.score ≥ y.score
    · simp [insDesc, hxy]
    · simp only [insDesc, if_neg hxy]
      exact (ih.cons y).trans (List.Perm.swap x y ys)

lemma sortDesc_perm (l : List Scored) : (sortDesc l).Perm l := by
  induction l with
  | nil => simp [sortDesc]
  | cons x xs ih =>
    have : sortDesc (x :: xs) = insDesc x (sortDesc xs) := rfl
    rw [this]
    exact (insDesc_perm x (sortDesc xs)).trans (ih.cons x)

lemma mem_sortDesc {y : Scored} {l : List Scored} : y ∈ sortDesc l ↔ y ∈ l :=
  (sortDesc_perm l).mem_iff

/-- The head of the stable descending sort is the first maximal-score
element of the original list: it belongs to the list, its score bounds
every score, and everything strictly before it scores strictly less. -/
lemma sortDesc_head_spec :
    ∀ (l : List Scored) (b : Scored), (sortDesc l).head? = some b →
      b ∈ l ∧ (∀ s ∈ l, s.score ≤ b.score) ∧
        ∃ l1 l2, l = l1 ++ b :: l2 ∧ ∀ s ∈ l1, s.score < b.score := by
  intro l
  induction l with
  | nil => intro b h; simp [sortDesc] at h
  | cons x xs ih =>
    intro b h
    have hsd : sortDesc (x :: xs) = insDesc x (sortDesc xs) := rfl
    rw [hsd] at h
    cases hxs : sortDesc xs with
    | nil =>
      rw [hxs] at h
      simp only [insDesc, List.head?, Option.some.injEq] at h
      have hnil : xs = [] := by
        have hp := sortDesc_perm xs
        rw [hxs] at hp
        exact hp.symm.eq_nil
      subst hnil
      rw [← h]
      refine ⟨List.mem_cons_self _ _, ?_, [], [], rfl, by simp⟩
      intro s hs
      rcases List.mem_singleton.mp hs with rfl
      exact le_refl _
    | cons y ys =>
      rw [hxs] at h
      have hy : (sortDesc xs).head? = some y := by rw [hxs]; rfl
      obtain ⟨hymem, hymax, l1, l2, hsplit, hl1⟩ := ih y hy
      by_cases hxy : x.score ≥ y.score
      · simp only [insDesc, if_pos hxy, List.head?, Option.some.injEq] at h
        rw [← h]
        refine ⟨List.mem_cons_self _ _, ?_, [], xs, rfl, by simp⟩
        intro s hs
        rcases List.mem_cons.mp hs with rfl | hs
        · exact le_refl _
        · exact le_trans (hymax s hs) hxy
      · simp only [insDesc, if_neg hxy, List.head?, Option.some.injEq] at h
        rw [← h]
        have hxlt : x.score < y.score := Nat.lt_of_not_le hxy
        refine ⟨List.mem_cons_of_mem x hymem, ?_, x :: l1, l2, by simp [hsplit], ?_⟩
        · intro s hs
          rcases List.mem_cons.mp hs with rfl | hs
          · exact le_of_lt hxlt
          · exact hymax s hs
        · intro s hs
          rcases List.mem_cons.mp hs with rfl | hs
          · exact hxlt
          · exact hl1 s hs

/-- Every scored entry comes from a catalog product with the same id. -/
lemma mem_scoredWith {tok : String → List String} {products : List Product}
    {toks : List String} {s : Scored} (h : s ∈ scoredWith tok products toks) :
    ∃ p ∈ products, p.id = s.productId := by
  rcases List.mem_map.mp h with ⟨p, hp, rfl⟩
  exact ⟨p, hp, rfl⟩

/-! ## Helper lemmas: chat aggregation -/

lemma bump_keys {l : List (Nat × Nat)} {k q : Nat} :
    ∀ kv ∈ bump l k q, kv.1 = k ∨ kv.1 ∈ l.map Prod.fst := by
  induction l with
  | nil =>
    intro kv hkv
    simp only [bump, List.mem_singleton] at hkv
    subst hkv
    exact Or.inl rfl
  | cons hd tl ih =>
    intro kv hkv
    obtain ⟨k1, q1⟩ := hd
    simp only [List.map_cons]
    by_cases hk : k1 = k
    · simp only [bump, if_pos hk] at hkv
      rcases List.mem_cons.mp hkv with rfl | hkv
      · exact Or.inl hk
      · exact Or.inr (List.mem_cons_of_mem _ (List.mem_map_of_mem Prod.fst hkv))
    · simp only [bump, if_neg hk] at hkv
      rcases List.mem_cons.mp hkv with rfl | hkv
      · exact Or.inr (List.mem_cons_self _ _)
      · rcases ih kv hkv with h | h
        · exact Or.inl h
        · exact Or.inr (List.mem_cons_of_mem _ h)

lemma bump_val_ge {k q : Nat} (hq : 1 ≤ q) :
    ∀ (l : List (Nat × Nat)), (∀ kv ∈ l, 1 ≤ kv.2) → ∀ kv ∈ bump l k q, 1 ≤ kv.2 := by
  intro l
  induction l with
  | nil =>
    intro _ kv hkv
    simp only [bump, List.mem_singleton] at hkv
    subst hkv
    exact hq
  | cons hd tl ih =>
    intro hl kv hkv
    obtain ⟨k1, q1⟩ := hd
    by_cases hk : k1 = k
    · simp only [bump, if_pos hk] at hkv
      rcases List.mem_cons.mp hkv with rfl | hkv
      · exact le_trans hq (Nat.le_add_left q q1)
      · exact hl kv (List.mem_cons_of_mem _ hkv)
    · simp only [bump, if_neg hk] at hkv
      rcases List.mem_cons.mp hkv with rfl | hkv
      · exact hl (k1, q1) (List.mem_cons_self _ _)
      · exact ih (fun kv h => hl kv (List.mem_cons_of_mem _ h)) kv hkv

lemma bump_fst (l : List (Nat × Nat)) (k q : Nat) :
    (bump l k q).map Prod.fst =
      if k ∈ l.map Prod.fst then l.map Prod.fst else l.map Prod.fst ++ [k] := by
  induction l with
  | nil => simp [bump]
  | cons hd tl ih =>
    obtain ⟨k1, q1⟩ := hd
    by_cases hk : k1 = k
    · subst hk
      simp [bump]

    · simp only [bump, if_neg hk, List.map_cons]
      rw [ih]
      by_cases hmem : k ∈ tl.map Prod.fst
      · simp [hmem, Ne.symm hk]
      · simp only [if_neg hmem]
        have : ¬ k ∈ (k1, q1).fst :: tl.map Prod.fst := by
          simp [hmem, Ne.symm hk]
        simp [hmem, Ne.symm hk]

lemma bump_nodup {l : List (Nat × Nat)} {k q : Nat}
    (h : (l.map Prod.fst).Nodup) : ((bump l k q).map Prod.fst).Nodup := by
  rw [bump_fst]
  by_cases hmem : k ∈ l.map Prod.fst
  · simpa [hmem] using h
  · simp only [if_neg hmem]
    exact List.Nodup.append h (List.nodup_singleton k)
      (by intro a ha hb; rcases List.mem_singleton.mp hb with rfl; exact hmem ha)

lemma insertAsc_perm (p : Nat × Nat) (l : List (Nat × Nat)) :
    (insertAsc p l).Perm (p :: l) := by
  induction l with
  | nil => simp [insertAsc]
  | cons q qs ih =>
    by_cases hpq : p.1 ≤ q.1
    · simp [insertAsc, hpq]
    · simp only [insertAsc, if_neg hpq]
      exact (ih.cons q).trans (List.Perm.swap p q qs)

lemma sortAsc_perm (l : List (Nat × Nat)) : (sortAsc l).Perm l := by
  induction l with
  | nil => simp [sortAsc]
  | cons x xs ih =>
    have : sortAsc (x :: xs) = insertAsc x (sortAsc xs) := rfl
    rw [this]
    exact (insertAsc_perm x (sortAsc xs)).trans (ih.cons x)

/-! ## Helper lemmas: chat parser invariants -/

lemma chatQuantity_ge (part : String) : 1 ≤ chatQuantity part := by
  unfold chatQuantity
  split <;> omega

lemma processPartChat_ok {products : List Product}
    {st : List (Nat × Nat) × List String} {part : String}
    (h1 : (st.1.map Prod.fst).Nodup)
    (h2 : ∀ kv ∈ st.1, kv.1 ∈ products.map Product.id ∧ 1 ≤ kv.2) :
    ((processPartChat products st part).1.map Prod.fst).Nodup ∧
      ∀ kv ∈ (processPartChat products st part).1,
        kv.1 ∈ products.map Product.id ∧ 1 ≤ kv.2 := by
  unfold processPartChat
  split
  · rename_i best hbest
    by_cases hsc : best.score > 0
    · rw [if_pos hsc]
      have hbmem : best ∈ scoredChat products (chatPartTokens part) :=
        mem_sortDesc.mp (head?_mem hbest)
      obtain ⟨p, hp, hpid⟩ := mem_scoredWith hbmem
      have hid : best.productId ∈ products.map Product.id :=
        List.mem_map.mpr ⟨p, hp, hpid⟩
      refine ⟨bump_nodup h1, ?_⟩
      intro kv hkv
      constructor
      · rcases bump_keys kv hkv with hkey | hkey
        · rw [hkey]; exact hid
        · obtain ⟨kv0, hkv0, hkey0⟩ := List.mem_map.mp hkey
          rw [← hkey0]
          exact (h2 kv0 hkv0).1
      · exact bump_val_ge (chatQuantity_ge part) st.1 (fun kv0 h => (h2 kv0 h).2) kv hkv
    · rw [if_neg hsc]
      exact ⟨h1, h2⟩
  · exact ⟨h1, h2⟩

lemma foldl_chat_ok (products : List Product) :
    ∀ (parts : List String) (st : List (Nat × Nat) × List String),
      (st.1.map Prod.fst).Nodup →
      (∀ kv ∈ st.1, kv.1 ∈ products.map Product.id ∧ 1 ≤ kv.2) →
      ((parts.foldl (processPartChat products) st).1.map Prod.fst).Nodup ∧
        ∀ kv ∈ (parts.foldl (processPartChat products) st).1,
          kv.1 ∈ products.map Product.id ∧ 1 ≤ kv.2 := by
  intro parts
  induction parts with
  | nil => intro st h1 h2; exact ⟨h1, h2⟩
  | cons p ps ih =>
    intro st h1 h2
    simp only [List.foldl_cons]
    obtain ⟨g1, g2⟩ := @processPartChat_ok products st p h1 h2
    exact ih _ g1 g2

/-- All structural facts about the chat parser's item list at once:
product ids are pairwise distinct, every id names a catalog product,
and every quantity is at least 1. -/
lemma parseChat_items_ok (products : List Product) (input : String) :
    ((parseMultipleItemsChat products input).items.map ParsedItem.productId).Nodup ∧
      ∀ it ∈ (parseMultipleItemsChat products input).items,
        it.productId ∈ products.map Product.id ∧ 1 ≤ it.quantity := by
  obtain ⟨h1, h2⟩ :=
    foldl_chat_ok products (chatParts input) ([], []) (by simp) (by simp)
  unfold parseMultipleItemsChat
  constructor
  · have hperm :
        ((sortAsc ((chatParts input).foldl (processPartChat products) ([], [])).1).map
            Prod.fst).Perm
          ((((chatParts input).foldl (processPartChat products) ([], [])).1).map Prod.fst) :=
      (sortAsc_perm _).map Prod.fst
    have hbig :
        (((sortAsc ((chatParts input).foldl (processPartChat products) ([], [])).1).map
            (fun kv => (⟨kv.1, kv.2⟩ : ParsedItem))).map ParsedItem.productId).Nodup := by
      rw [List.map_map]
      show ((sortAsc ((chatParts input).foldl (processPartChat products) ([], [])).1).map
          Prod.fst).Nodup
      exact hperm.nodup_iff.mpr h1
    exact ((List.take_sublist 15 _).map ParsedItem.productId).nodup hbig
  · intro it hit
    have hit2 := List.take_subset 15 _ hit
    obtain ⟨kv, hkv, hkveq⟩ := List.mem_map.mp hit2
    have hkvmem : kv ∈ (((chatParts input).foldl (processPartChat products) ([], [])).1) :=
      (sortAsc_perm _).subset hkv
    obtain ⟨hkvid, hkvq⟩ := h2 kv hkvmem
    rw [← hkveq]
    exact ⟨hkvid, hkvq⟩

lemma processPartChat_nil (st : List (Nat × Nat) × List String) (part : String) :
    processPartChat [] st part = (st.1, st.2 ++ [part]) := rfl

lemma foldl_chat_nil_fst :
    ∀ (parts : List String) (st : List (Nat × Nat) × List String),
      (parts.foldl (processPartChat []) st).1 = st.1 := by
  intro parts
  induction parts with
  | nil => intro st; rfl
  | cons p ps ih =>
    intro st
    simp only [List.foldl_cons, processPartChat_nil]
    exact ih _

/-- With an empty catalog the chat parser returns no items. -/
lemma parseChat_nil_items (input : String) :
    (parseMultipleItemsChat [] input).items = [] := by
  unfold parseMultipleItemsChat
  show (((sortAsc ((chatParts input).foldl (processPartChat []) ([], [])).1).map
      (fun kv => (⟨kv.1, kv.2⟩ : ParsedItem))).take 15) = []
  rw [foldl_chat_nil_fst]
  rfl

/-- A fragment whose every score is zero changes no aggregation state
and is appended to the unavailable list. -/
lemma processPartChat_unmatched {products : List Product}
    {st : List (Nat × Nat) × List String} {part : String}
    (h : ∀ s ∈ scoredChat products (chatPartTokens part), s.score = 0) :
    processPartChat products st part = (st.1, st.2 ++ [part]) := by
  unfold processPartChat
  split
  · rename_i best hbest
    have hb : best.score = 0 := h best (mem_sortDesc.mp (head?_mem hbest))
    rw [if_neg (by omega)]
  · rfl

/-! ## Helper lemmas: voice parser invariants -/

lemma processPartVoice_sub {products : List Product} {items : List ParsedItem}
    {part : String} :
    ∀ it ∈ processPartVoice products items part,
      it ∈ items ∨ ∃ p ∈ products, p.id = it.productId := by
  intro it hit
  unfold processPartVoice at hit
  by_cases htrim : (⟨jsTrim part.data⟩ : String) = ""
  · rw [if_pos htrim] at hit
    exact Or.inl hit
  · rw [if_neg htrim] at hit
    split at hit
    · rename_i best hbest
      by_cases hsc : best.score > 0
      · rw [if_pos hsc] at hit
        rcases List.mem_append.mp hit with hin | hnew
        · exact Or.inl hin
        · rcases List.mem_singleton.mp hnew with rfl
          exact Or.inr (mem_scoredWith (mem_sortDesc.mp (head?_mem hbest)))
      · rw [if_neg hsc] at hit
        exact Or.inl hit
    · exact Or.inl hit

lemma foldl_voice_sub (products : List Product) :
    ∀ (parts : List String) (items : List ParsedItem),
      (∀ it ∈ items, ∃ p ∈ products, p.id = it.productId) →
      ∀ it ∈ parts.foldl (processPartVoice products) items,
        ∃ p ∈ products, p.id = it.productId := by
  intro parts
  induction parts with
  | nil => intro items h; exact h
  | cons p ps ih =>
    intro items h
    simp only [List.foldl_cons]
    refine ih _ ?_
    intro it hit
    rcases processPartVoice_sub it hit with hin | hnew
    · exact h it hin
    · exact hnew

/-- Every item the voice parser emits names a catalog product. -/
lemma parseVoice_sub (products : List Product) (command : String) :
    ∀ it ∈ parseMultipleItemsVoice products command,
      ∃ p ∈ products, p.id = it.productId := by
  intro it hit
  exact foldl_voice_sub products (splitVoice command) [] (by simp) it hit

lemma processPartVoice_nil (items : List ParsedItem) (part : String) :
    processPartVoice [] items part = items := by
  unfold processPartVoice
  split <;> rfl

/-- With an empty catalog the voice parser returns no items. -/
lemma parseVoice_nil (command : String) :
    parseMultipleItemsVoice [] command = [] := by
  unfold parseMultipleItemsVoice
  generalize splitVoice command = parts
  induction parts with
  | nil => rfl
  | cons p ps ih =>
    simp only [List.foldl_cons, processPartVoice_nil]
    exact ih

/-- A fragment whose every score is zero contributes no voice item. -/
lemma processPartVoice_unmatched {products : List Product}
    {items : List ParsedItem} {part : String}
    (h : ∀ s ∈ scoredVoice products (voicePartTokens ⟨jsTrim part.data⟩), s.score = 0) :
    processPartVoice products items part = items := by
  unfold processPartVoice
  by_cases htrim : (⟨jsTrim part.data⟩ : String) = ""
  · rw [if_pos htrim]
  · rw [if_neg htrim]
    split
    · rename_i best hbest
      have hb : best.score = 0 := h best (mem_sortDesc.mp (head?_mem hbest))
      rw [if_neg (by omega)]
    · rfl

/-! ## Separator-and-whitespace-only utterances (chat parser)

`SepWs false l` formalizes "the text consists only of separators and
whitespace": a sequence of whitespace characters, separator symbols
(comma, ampersand, plus sign) and the separator words `and`, `plus`,
`with` (case-insensitive), where each separator word is delimited (not
glued to an adjacent word character).  The flag mirrors the scanner's
`prevW`: it is `true` directly after a separator word, where another
separator word may not begin. -/
inductive SepWs : Bool → List Char → Prop where
  | nil (b : Bool) : SepWs b []
  | ws (b : Bool) {c : Char} {cs : List Char} :
      c.isWhitespace = true → SepWs false cs → SepWs b (c :: cs)
  | sym (b : Bool) {c : Char} {cs : List Char} :
      (c = ',' ∨ c = '&' ∨ c = '+') → SepWs false cs → SepWs b (c :: cs)
  | word_and {c1 c2 c3 : Char} {cs : List Char} :
      c1.toLower = 'a' → c2.toLower = 'n' → c3.toLower = 'd' →
      SepWs true cs → SepWs false (c1 :: c2 :: c3 :: cs)
  | word_plus {c1 c2 c3 c4 : Char} {cs : List Char} :
      c1.toLower = 'p' → c2.toLower = 'l' → c3.toLower = 'u' → c4.toLower = 's' →
      SepWs true cs → SepWs false (c1 :: c2 :: c3 :: c4 :: cs)
  | word_with {c1 c2 c3 c4 : Char} {cs : List Char} :
      c1.toLower = 'w' → c2.toLower = 'i' → c3.toLower = 't' → c4.toLower = 'h' →
      SepWs true cs → SepWs false (c1 :: c2 :: c3 :: c4 :: cs)

lemma ws_char_cases {c : Char} (h : c.isWhitespace = true) :
    c = ' ' ∨ c = '\t' ∨ c = '\r' ∨ c = '\n' := by
  have h2 := h
  simp only [Char.isWhitespace, Bool.or_eq_true, decide_eq_true_eq] at h2
  tauto

lemma sepWs_true_headNonWord {l : List Char} (h : SepWs true l) :
    headNonWord l = true := by
  cases h with
  | nil => rfl
  | ws b hc _ =>
    rcases ws_char_cases hc with rfl | rfl | rfl | rfl <;> rfl
  | sym b hc _ =>
    rcases hc with rfl | rfl | rfl <;> rfl

lemma isAndAt_eq_false {c : Char} (h : c.toLower ≠ 'a') (cs : List Char) :
    isAndAt c cs = false := by
  have hbeq : (c.toLower == 'a') = false := beq_eq_false_iff_ne.mpr h
  rcases cs with _ | ⟨c2, _ | ⟨c3, rest⟩⟩ <;> simp [isAndAt, hbeq]

lemma isPlusAt_eq_false {c : Char} (h : c.toLower ≠ 'p') (cs : List Char) :
    isPlusAt c cs = false := by
  have hbeq : (c.toLower == 'p') = false := beq_eq_false_iff_ne.mpr h
  rcases cs with _ | ⟨c2, _ | ⟨c3, _ | ⟨c4, rest⟩⟩⟩ <;> simp [isPlusAt, hbeq]

lemma isWithAt_eq_false {c : Char} (h : c.toLower ≠ 'w') (cs : List Char) :
    isWithAt c cs = false := by
  have hbeq : (c.toLower == 'w') = false := beq_eq_false_iff_ne.mpr h
  rcases cs with _ | ⟨c2, _ | ⟨c3, _ | ⟨c4, rest⟩⟩⟩ <;> simp [isWithAt, hbeq]

/-- Scanner step on an ordinary character (no separator can begin here). -/
lemma chatSplitAux_regular {c : Char} (fuel : Nat) (prevW : Bool) (acc cs : List Char)
    (hsym : ¬(c = ',' ∨ c = '&' ∨ c = '+'))
    (ha : c.toLower ≠ 'a') (hp : c.toLower ≠ 'p') (hw : c.toLower ≠ 'w') :
    chatSplitAux (fuel + 1) prevW acc (c :: cs) =
      chatSplitAux fuel (isWordChar c) (c :: acc) cs := by
  have hA := isAndAt_eq_false ha cs
  have hP := isPlusAt_eq_false hp cs
  have hW := isWithAt_eq_false hw cs
  simp only [chatSplitAux]
  rw [if_neg hsym,
    if_neg (fun hc => by rw [hA] at hc; exact Bool.false_ne_true hc.2),
    if_neg (fun hc => by rw [hP] at hc; exact Bool.false_ne_true hc.2),
    if_neg (fun hc => by rw [hW] at hc; exact Bool.false_ne_true hc.2)]

/-- Scanner step on a separator symbol. -/
lemma chatSplitAux_sym {c : Char} (fuel : Nat) (prevW : Bool) (acc cs : List Char)
    (h : c = ',' ∨ c = '&' ∨ c = '+') :
    chatSplitAux (fuel + 1) prevW acc (c :: cs) =
      acc.reverse :: chatSplitAux fuel false [] cs := by
  simp only [chatSplitAux]
  rw [if_pos h]

lemma sym_not_wordlike {c : Char} (h : c = ',' ∨ c = '&' ∨ c = '+') :
    c.toLower ≠ 'a' ∧ c.toLower ≠ 'p' ∧ c.toLower ≠ 'w' := by
  rcases h with rfl | rfl | rfl <;> exact ⟨by decide, by decide, by decide⟩

/-- Scanner step consuming a delimited `and`. -/
lemma chatSplitAux_and {c1 c2 c3 : Char} (fuel : Nat) (acc rest : List Char)
    (h1 : c1.toLower = 'a') (h2 : c2.toLower = 'n') (h3 : c3.toLower = 'd')
    (hnw : headNonWord rest = true) :
    chatSplitAux (fuel + 1) false acc (c1 :: c2 :: c3 :: rest) =
      acc.reverse :: chatSplitAux fuel true [] rest := by
  have hsym : ¬(c1 = ',' ∨ c1 = '&' ∨ c1 = '+') := by
    rintro (rfl | rfl | rfl) <;> exact absurd h1 (by decide)
  have hA : isAndAt c1 (c2 :: c3 :: rest) = true := by
    simp [isAndAt, h1, h2, h3, hnw]
  simp only [chatSplitAux]
  rw [if_neg hsym, if_pos (And.intro (by trivial) hA)]
  rfl

/-- Scanner step consuming a delimited `plus`. -/
lemma chatSplitAux_plus {c1 c2 c3 c4 : Char} (fuel : Nat) (acc rest : List Char)
    (h1 : c1.toLower = 'p') (h2 : c2.toLower = 'l') (h3 : c3.toLower = 'u')
    (h4 : c4.toLower = 's') (hnw : headNonWord rest = true) :
    chatSplitAux (fuel + 1) false acc (c1 :: c2 :: c3 :: c4 :: rest) =
      acc.reverse :: chatSplitAux fuel true [] rest := by
  have hsym : ¬(c1 = ',' ∨ c1 = '&' ∨ c1 = '+') := by
    rintro (rfl | rfl | rfl) <;> exact absurd h1 (by decide)
  have hA := isAndAt_eq_false (by rw [h1]; decide) (c2 :: c3 :: c4 :: rest)
  have hP : isPlusAt c1 (c2 :: c3 :: c4 :: rest) = true := by
    simp [isPlusAt, h1, h2, h3, h4, hnw]
  simp only [chatSplitAux]
  rw [if_neg hsym, if_neg (fun hc => by rw [hA] at hc; exact Bool.false_ne_true hc.2),
    if_pos (And.intro (by trivial) hP)]
  rfl

/-- Scanner step consuming a delimited `with`. -/
lemma chatSplitAux_with {c1 c2 c3 c4 : Char} (fuel : Nat) (acc rest : List Char)
    (h1 : c1.toLower = 'w') (h2 : c2.toLower = 'i') (h3 : c3.toLower = 't')
    (h4 : c4.toLower = 'h') (hnw : headNonWord rest = true) :
    chatSplitAux (fuel + 1) false acc (c1 :: c2 :: c3 :: c4 :: rest) =
      acc.reverse :: chatSplitAux fuel true [] rest := by
  have hsym : ¬(c1 = ',' ∨ c1 = '&' ∨ c1 = '+') := by
    rintro (rfl | rfl | rfl) <;> exact absurd h1 (by decide)
  have hA := isAndAt_eq_false (by rw [h1]; decide) (c2 :: c3 :: c4 :: rest)
  have hP := isPlusAt_eq_false (by rw [h1]; decide) (c2 :: c3 :: c4 :: rest)
  have hW : isWithAt c1 (c2 :: c3 :: c4 :: rest) = true := by
    simp [isWithAt, h1, h2, h3, h4, hnw]
  simp only [chatSplitAux]
  rw [if_neg hsym, if_neg (fun hc => by rw [hA] at hc; exact Bool.false_ne_true hc.2),
    if_neg (fun hc => by rw [hP] at hc; exact Bool.false_ne_true hc.2),
    if_pos (And.intro (by trivial) hW)]
  rfl

/-- On a separator-and-whitespace-only input, every fragment the chat
scanner produces consists of whitespace only. -/
lemma sepWs_frags {b : Bool} {l : List Char} (h : SepWs b l) :
    ∀ (fuel : Nat), l.length ≤ fuel →
      ∀ (acc : List Char), (∀ c ∈ acc, c.isWhitespace = true) →
        ∀ f ∈ chatSplitAux fuel b acc l, ∀ c ∈ f, c.isWhitespace = true := by
  induction h with
  | nil b =>
    intro fuel _ acc hacc f hf c hc
    cases fuel with
    | zero =>
      simp only [chatSplitAux, List.append_nil, List.mem_singleton] at hf
      subst hf
      exact hacc c (List.mem_reverse.mp hc)
    | succ fu =>
      simp only [chatSplitAux, List.mem_singleton] at hf
      subst hf
      exact hacc c (List.mem_reverse.mp hc)
  | ws b hc hcs ih =>
    rename_i c cs
    intro fuel hfuel acc hacc f hf x hx
    cases fuel with
    | zero => simp at hfuel
    | succ fu =>
      have hstep :
          chatSplitAux (fu + 1) b acc (c :: cs) =
            chatSplitAux fu (isWordChar c) (c :: acc) cs := by
        rcases ws_char_cases hc with rfl | rfl | rfl | rfl <;>
          exact chatSplitAux_regular fu b acc cs (by decide) (by decide) (by decide)
            (by decide)
      rw [hstep] at hf
      have hacc2 : ∀ y ∈ c :: acc, y.isWhitespace = true := by
        intro y hy
        rcases List.mem_cons.mp hy with rfl | hy
        · exact hc
        · exact hacc y hy
      have hwc : isWordChar c = false := by
        rcases ws_char_cases hc with rfl | rfl | rfl | rfl <;> decide
      rw [hwc] at hf
      exact ih fu (by simpa using Nat.le_of_succ_le_succ hfuel) (c :: acc) hacc2 f hf x hx
  | sym b hc hcs ih =>
    rename_i c cs
    intro fuel hfuel acc hacc f hf x hx
    cases fuel with
    | zero => simp at hfuel
    | succ fu =>
      rw [chatSplitAux_sym fu b acc cs hc] at hf
      rcases List.mem_cons.mp hf with rfl | hf
      · exact hacc x (List.mem_reverse.mp hx)
      · exact ih fu (by simpa using Nat.le_of_succ_le_succ hfuel) [] (by simp) f hf x hx
  | word_and h1 h2 h3 hcs ih =>
    rename_i c1 c2 c3 cs
    intro fuel hfuel acc hacc f hf x hx
    cases fuel with
    | zero => simp at hfuel
    | succ fu =>
      rw [chatSplitAux_and fu acc cs h1 h2 h3 (sepWs_true_headNonWord hcs)] at hf
      rcases List.mem_cons.mp hf with rfl | hf
      · exact hacc x (List.mem_reverse.mp hx)
      · refine ih fu ?_ [] (by simp) f hf x hx
        simp only [List.length_cons] at hfuel
        omega
  | word_plus h1 h2 h3 h4 hcs ih =>
    rename_i c1 c2 c3 c4 cs
    intro fuel hfuel acc hacc f hf x hx
    cases fuel with
    | zero => simp at hfuel
    | succ fu =>
      rw [chatSplitAux_plus fu acc cs h1 h2 h3 h4 (sepWs_true_headNonWord hcs)] at hf
      rcases List.mem_cons.mp hf with rfl | hf
      · exact hacc x (List.mem_reverse.mp hx)
      · refine ih fu ?_ [] (by simp) f hf x hx
        simp only [List.length_cons] at hfuel
        omega
  | word_with h1 h2 h3 h4 hcs ih =>
    rename_i c1 c2 c3 c4 cs
    intro fuel hfuel acc hacc f hf x hx
    cases fuel with
    | zero => simp at hfuel
    | succ fu =>
      rw [chatSplitAux_with fu acc cs h1 h2 h3 h4 (sepWs_true_headNonWord hcs)] at hf
      rcases List.mem_cons.mp hf with rfl | hf
      · exact hacc x (List.mem_reverse.mp hx)
      · refine ih fu ?_ [] (by simp) f hf x hx
        simp only [List.length_cons] at hfuel
        omega

lemma jsTrim_allWs {l : List Char} (h : ∀ c ∈ l, c.isWhitespace = true) :
    jsTrim l = [] := by
  unfold jsTrim
  have h1 : l.dropWhile Char.isWhitespace = [] := by
    rw [List.dropWhile_eq_nil_iff]
    exact h
  rw [h1]
  rfl

/-- A separator-and-whitespace-only input produces no chat fragments. -/
lemma sepWs_chatParts {input : String} (h : SepWs false input.data) :
    chatParts input = [] := by
  unfold chatParts
  rw [List.filter_eq_nil_iff]
  intro p hp
  obtain ⟨f, hf, rfl⟩ := List.mem_map.mp hp
  have hws := sepWs_frags h input.data.length (le_refl _) [] (by simp) f hf
  have htrim : jsTrim f = [] := jsTrim_allWs hws
  simp [htrim]

/-- A separator-and-whitespace-only input yields no chat items (and no
unavailable fragments either). -/
lemma parseChat_sepWs (products : List Product) (input : String)
    (h : SepWs false input.data) :
    parseMultipleItemsChat products input = ⟨[], []⟩ := by
  unfold parseMultipleItemsChat
  rw [sepWs_chatParts h]
  rfl

/-! ## Tokenizer comparison -/

lemma tokenizeWith_congr {k1 k2 : Char → Bool} (h : ∀ c, k1 c = k2 c) (s : String) :
    tokenizeWith k1 s = tokenizeWith k2 s := by
  unfold tokenizeWith blankOutside
  have he : (fun c => if k1 c then c else ' ') = (fun c => if k2 c then c else ' ') :=
    funext fun c => by rw [h c]
  rw [he]

lemma keepChat_eq_specKeep (c : Char) : keepChat c = specKeep c := by
  unfold keepChat specKeep isAsciiLowerAlpha
  cases h1 : ('a' ≤ c && c ≤ 'z') <;> cases h2 : c.isWhitespace <;>
    cases h3 : Char.isDigit c <;>
      simp_all [show Char.isDigit c = ('0' ≤ c && c ≤ '9') from rfl]

/-! ## Claims -/

/-- Claim C1: for the catalog [Fresh Tomatoes (id 1), Sweet Bananas (id 3)]
and the utterance "Add 2 tomatoes and 3 bananas", both the voice-assistant
multi-item parser and the chat-input parser return exactly the item list
[(productId 1, quantity 2), (productId 3, quantity 3)], in that order. -/
theorem claim_c1 :
    parseMultipleItemsVoice demoCatalog "Add 2 tomatoes and 3 bananas" =
        [⟨1, 2⟩, ⟨3, 3⟩] ∧
      (parseMultipleItemsChat demoCatalog "Add 2 tomatoes and 3 bananas").items =
        [⟨1, 2⟩, ⟨3, 3⟩] :=
  ⟨by decide, by decide⟩

/-- Claim C2 counterexample: the voice-assistant parser does not
aggregate: "2 apples and 3 apples" against the one-product catalog
yields two entries for product 1, not a single item of quantity 5. -/
theorem claim_c2_counterexample :
    parseMultipleItemsVoice appleCatalog "2 apples and 3 apples" = [⟨1, 2⟩, ⟨1, 3⟩] ∧
      (parseMultipleItemsVoice appleCatalog "2 apples and 3 apples").length ≠ 1 :=
  ⟨by decide, by decide⟩

/-- Claim C2 (amended): the chat-input parser aggregates fragments that
match the same product into one ParsedItem — "2 apples and 3 apples"
yields exactly [(1, 5)] — and its item list never contains two entries
with the same productId; the voice-assistant parser pushes one entry per
fragment and does emit duplicates. -/
theorem claim_c2 :
    (parseMultipleItemsChat appleCatalog "2 apples and 3 apples").items = [⟨1, 5⟩] ∧
      ∀ (products : List Product) (input : String),
        ((parseMultipleItemsChat products input).items.map ParsedItem.productId).Nodup :=
  ⟨by decide, fun products input => (parseChat_items_ok products input).1⟩

/-- Claim C3 counterexample: the voice-assistant parser does not clamp a
detected numeral: "0 tomatoes" yields an item of quantity 0. -/
theorem claim_c3_counterexample :
    parseMultipleItemsVoice tomatoCatalog "0 tomatoes" = [⟨1, 0⟩] ∧
      ¬ ∀ it ∈ parseMultipleItemsVoice tomatoCatalog "0 tomatoes", 1 ≤ it.quantity :=
  ⟨by decide, by decide⟩

/-- Claim C3 (amended): in the chat-input parser every emitted item has
quantity at least 1 (missing quantity defaults to 1, an invalid detected
quantity such as the literal 0 is clamped to 1); the voice-assistant
parser passes detected numerals through unclamped. -/
theorem claim_c3 (products : List Product) (input : String) :
    ∀ it ∈ (parseMultipleItemsChat products input).items, 1 ≤ it.quantity :=
  fun it hit => ((parseChat_items_ok products input).2 it hit).2

theorem claim_c3_witness : 1 ≤ (ParsedItem.mk 1 1).quantity :=
  claim_c3 tomatoCatalog "0 tomatoes" ⟨1, 1⟩ (by decide)

/-- Claim C4 counterexample: the voice-assistant word-quantity table
covers only one..ten, so "eleven tomatoes" yields quantity 1, not 11. -/
theorem claim_c4_counterexample :
    parseMultipleItemsVoice tomatoCatalog "eleven tomatoes" = [⟨1, 1⟩] ∧
      parseMultipleItemsVoice tomatoCatalog "eleven tomatoes" ≠ [⟨1, 11⟩] :=
  ⟨by decide, by decide⟩

/-- Claim C4 (amended): both parsers prefer the first detected numeral
("2 three apples" gives quantity 2 in both; the voice parser requires
whitespace after the digit run, the chat parser takes the first digit
run anywhere); otherwise the chat parser scans the fragment's tokens in
token order against a map covering one..twelve ("eleven tomatoes" gives
11, "ten two apples" gives 10), while the voice parser checks the words
one..ten in table order ("eleven tomatoes" gives 1, "ten two apples"
gives 2); with no quantity found both default to 1. -/
theorem claim_c4 :
    parseMultipleItemsVoice appleCatalog "2 three apples" = [⟨1, 2⟩] ∧
      (parseMultipleItemsChat appleCatalog "2 three apples").items = [⟨1, 2⟩] ∧
      (parseMultipleItemsChat tomatoCatalog "eleven tomatoes").items = [⟨1, 11⟩] ∧
      parseMultipleItemsVoice appleCatalog "ten two apples" = [⟨1, 2⟩] ∧
      (parseMultipleItemsChat appleCatalog "ten two apples").items = [⟨1, 10⟩] ∧
      voiceQuantity "milk" = 1 ∧ chatQuantity "milk" = 1 :=
  ⟨by decide, by decide, by decide, by decide, by decide, by decide, by decide⟩

/-- Claim C5 counterexample: the voice-assistant tokenizer does not keep
the class [a-z0-9\s]: it blanks digits too, so tokenizing "2 apples"
loses the token "2" that the spec's tokenizer keeps. -/
theorem claim_c5_counterexample :
    tokenizeVoice "2 apples" = ["appl"] ∧ tokenizeSpec "2 apples" = ["2", "appl"] ∧
      tokenizeVoice "2 apples" ≠ tokenizeSpec "2 apples" :=
  ⟨by decide, by decide, by decide⟩

/-- Claim C5 (amended): the chat-input tokenizer is exactly the spec's
tokenizer (kept class [a-z0-9\s], whitespace split, naive
singularization, stop-word removal); the voice-assistant tokenizer keeps
only [a-z\s], so digits are blanked like punctuation — e.g. "x2y"
tokenizes to ["x", "y"] in the voice parser but ["x2y"] in the chat
parser. -/
theorem claim_c5 :
    (∀ s : String, tokenizeChat s = tokenizeSpec s) ∧
      tokenizeVoice "x2y" = ["x", "y"] ∧ tokenizeChat "x2y" = ["x2y"] :=
  ⟨fun s => tokenizeWith_congr keepChat_eq_specKeep s, by decide, by decide⟩

/-- Claim C6: both parsers select, per fragment, the first
highest-scoring product of the catalog sequence (the head of the stable
descending sort is a maximal-score element preceded only by strictly
smaller scores); a fragment whose every product score is 0 contributes
no item — the chat parser appends it to the unavailable list, the voice
parser leaves its item list unchanged. -/
theorem claim_c6 :
    (∀ (l : List Scored) (b : Scored), (sortDesc l).head? = some b →
        b ∈ l ∧ (∀ s ∈ l, s.score ≤ b.score) ∧
          ∃ l1 l2, l = l1 ++ b :: l2 ∧ ∀ s ∈ l1, s.score < b.score) ∧
      (∀ (products : List Product) (st : List (Nat × Nat) × List String) (part : String),
        (∀ s ∈ scoredChat products (chatPartTokens part), s.score = 0) →
          processPartChat products st part = (st.1, st.2 ++ [part])) ∧
      (∀ (products : List Product) (items : List ParsedItem) (part : String),
        (∀ s ∈ scoredVoice products (voicePartTokens ⟨jsTrim part.data⟩), s.score = 0) →
          processPartVoice products items part = items) :=
  ⟨sortDesc_head_spec, fun _ _ _ h => processPartChat_unmatched h,
    fun _ _ _ h => processPartVoice_unmatched h⟩

theorem claim_c6_witness :
    ((Scored.mk 2 3) ∈ [Scored.mk 1 0, Scored.mk 2 3, Scored.mk 3 3] ∧
        (∀ s ∈ [Scored.mk 1 0, Scored.mk 2 3, Scored.mk 3 3],
          s.score ≤ (Scored.mk 2 3).score) ∧
        ∃ l1 l2, [Scored.mk 1 0, Scored.mk 2 3, Scored.mk 3 3] =
            l1 ++ Scored.mk 2 3 :: l2 ∧ ∀ s ∈ l1, s.score < (Scored.mk 2 3).score) ∧
      processPartChat demoCatalog ([], []) "x" = ([], ["x"]) ∧
      processPartVoice demoCatalog [] "x" = [] :=
  ⟨claim_c6.1 [⟨1, 0⟩, ⟨2, 3⟩, ⟨3, 3⟩] ⟨2, 3⟩ (by decide),
    claim_c6.2.1 demoCatalog ([], []) "x" (by decide),
    claim_c6.2.2 demoCatalog [] "x" (by decide)⟩

/-- Claim C7 counterexample: the voice-assistant segmentation does not
split on "&": the utterance "2 tomatoes & 3 bananas" stays one
fragment. -/
theorem claim_c7_counterexample :
    splitVoice "2 tomatoes & 3 bananas" = ["2 tomatoes & 3 bananas"] ∧
      splitVoice "2 tomatoes & 3 bananas" ≠ ["2 tomatoes", "3 bananas"] :=
  ⟨by decide, by decide⟩

/-- Claim C7 (amended): the chat-input parser splits on comma, "&", "+",
and the delimited words "and"/"plus"/"with", case-insensitively and
whitespace-tolerantly, discarding empty trimmed fragments ("sandwich" is
not split); the voice-assistant parser splits only on the literal
case-sensitive strings " and ", ", ", " plus ", " with " — no "&", no
"+", a comma requires a following space, and the words require flanking
spaces. -/
theorem claim_c7 :
    chatParts "Milk, 2 eggs & bread + butter AND jam plus Rice WITH beans" =
        ["Milk", "2 eggs", "bread", "butter", "jam", "Rice", "beans"] ∧
      chatParts "sandwich" = ["sandwich"] ∧
      chatParts " , and , " = [] ∧
      splitVoice "a and b, c plus d with e" = ["a", "b", "c", "d", "e"] ∧
      splitVoice "a AND b" = ["a AND b"] ∧
      splitVoice "a,b" = ["a,b"] :=
  ⟨by decide, by decide, by decide, by decide, by decide, by decide⟩

/-- Claim C8: the category fallback exists and works for the keyword
"vegetable", but the spec's own example "vegetables" fails: tokenization
singularizes "vegetables" to "vegetabl" (the "es" rule fires), which is
not in the category keyword list, so the handler reports not-found
instead of adding a representative product — contradicting the
component's own UI text, which advertises "vegetables, fruits, dairy". -/
theorem claim_c8 :
    handleVoiceCommand vegCatalog "vegetables" = VoiceAction.notFound ∧
      handleVoiceCommand vegCatalog "vegetable" = VoiceAction.addCategory 1 ∧
      tokenizeVoice "vegetables" = ["vegetabl"] :=
  ⟨by decide, by decide, by decide⟩

/-- Claim C9 counterexample: the voice-assistant parser can emit an item
for an utterance consisting only of the separator word "with": its
separators are the literal strings " and ", ", ", " plus ", " with ", so
an unflanked "with" becomes a fragment and can match a product. -/
theorem claim_c9_counterexample :
    parseMultipleItemsVoice withCatalog "with" = [⟨1, 1⟩] ∧
      parseMultipleItemsVoice withCatalog "with" ≠ [] :=
  ⟨by decide, by decide⟩

/-- Claim C9 (amended): both parsers are total by construction; for
every utterance consisting only of separators and whitespace the
chat-input parser's item list is empty (for every catalog); with an
empty catalog both parsers always return an empty item list.  The
voice-assistant parser does not enjoy the separator-only guarantee (see
the counterexample). -/
theorem claim_c9 :
    (∀ (products : List Product) (input : String), SepWs false input.data →
        (parseMultipleItemsChat products input).items = []) ∧
      (∀ command : String, parseMultipleItemsVoice [] command = []) ∧
      (∀ input : String, (parseMultipleItemsChat [] input).items = []) :=
  ⟨fun products input h => by rw [parseChat_sepWs products input h],
    parseVoice_nil, parseChat_nil_items⟩

theorem claim_c9_witness :
    (parseMultipleItemsChat demoCatalog " , and ").items = [] :=
  claim_c9.1 demoCatalog " , and "
    (SepWs.ws false rfl (SepWs.sym false (Or.inl rfl)
      (SepWs.ws false rfl (SepWs.word_and rfl rfl rfl
        (SepWs.ws true rfl (SepWs.nil false))))))

/-- Claim C10: every productId in either parser's result is the id of a
product of the supplied catalog, and with an empty catalog both parsers
return an empty item list. -/
theorem claim_c10 :
    (∀ (products : List Product) (command : String),
        ∀ it ∈ parseMultipleItemsVoice products command,
          ∃ p ∈ products, p.id = it.productId) ∧
      (∀ (products : List Product) (input : String),
        ∀ it ∈ (parseMultipleItemsChat products input).items,
          ∃ p ∈ products, p.id = it.productId) ∧
      (∀ command : String, parseMultipleItemsVoice [] command = []) ∧
      (∀ input : String, (parseMultipleItemsChat [] input).items = []) := by
  refine ⟨parseVoice_sub, ?_, parseVoice_nil, parseChat_nil_items⟩
  intro products input it hit
  have hid := ((parseChat_items_ok products input).2 it hit).1
  obtain ⟨p, hp, hpid⟩ := List.mem_map.mp hid
  exact ⟨p, hp, hpid⟩

theorem claim_c10_witness :
    ∃ p ∈ demoCatalog, p.id = (ParsedItem.mk 1 2).productId :=
  claim_c10.1 demoCatalog "Add 2 tomatoes and 3 bananas" ⟨1, 2⟩ (by decide)

end VoiceOrder
